import Mathlib

/-!
Verification of `cloud_browser/templatetags/cloud_browser_extras.py`.

The file shallowly embeds the three template helpers of the repository:

* `truncatechars` — the character-truncation filter;
* `MediaUrlNode` / `cloud_browser_media_url` — the static-media URL tag
  (the branch taken when `CLOUD_BROWSER_STATIC_MEDIA_URL` is configured;
  the other branch calls Django's `reverse`, an external service);
* `CloudBrowserMessagesNode` / `cloud_browser_messages` — the tag that
  groups Django messages by `(level, tags)` and renders markup blocks.

Python strings are modelled as Lean `String`s and all string operations
are defined over `String.data` (the underlying character list), mirroring
Python's character-level semantics (`lstrip`, `strip`, slices with a
possibly negative stop, `os.path.join` for POSIX paths, `int()` parsing).
-/

set_option maxRecDepth 8000

namespace CloudBrowserExtras

/-! ### Python string primitives -/

/-- Python's `s[:k]` slice: a non-negative stop takes the first `k`
characters (clamped to the length); a negative stop counts from the end,
clamped at zero. -/
def pySliceTo (s : String) (k : Int) : String :=
  if k < 0 then ⟨s.data.take ((s.data.length : Int) + k).toNat⟩
  else ⟨s.data.take k.toNat⟩

/-- Whitespace characters removed by Python's `str.strip()` (and hence
accepted around the digits by `int()`). -/
def pyIsSpace (c : Char) : Bool :=
  c == ' ' || c == '\t' || c == '\n' || c == '\r' || c == '\x0b' || c == '\x0c'

/-- ASCII decimal digit test, as used by Python's `int()`. -/
def pyIsDigit (c : Char) : Bool :=
  decide ('0' ≤ c) && decide (c ≤ '9')

/-- Value of a list of decimal digit characters. -/
def pyDigitsVal (l : List Char) : Nat :=
  l.foldl (fun a c => a * 10 + (c.toNat - 48)) 0

/-- Python's `str.lstrip(c)` for a one-character strip set: drop every
leading occurrence of `c`. -/
def pyLstrip (l : List Char) (c : Char) : List Char :=
  l.dropWhile (· == c)

/-- Python's `str.strip(c)` for a one-character strip set: drop every
leading and trailing occurrence of `c`. -/
def pyStripChar (l : List Char) (c : Char) : List Char :=
  ((l.dropWhile (· == c)).reverse.dropWhile (· == c)).reverse

/-- Strip leading and trailing whitespace, as `int()` does before
parsing. -/
def pyStripSpace (l : List Char) : List Char :=
  ((l.dropWhile pyIsSpace).reverse.dropWhile pyIsSpace).reverse

/-- Python's `int(s)` on a string: optional surrounding whitespace, an
optional sign, then a non-empty run of decimal digits; anything else
raises `ValueError`, modelled as `none`. -/
def pyParseInt (s : String) : Option Int :=
  match pyStripSpace s.data with
  | '+' :: rest =>
      if !rest.isEmpty && rest.all pyIsDigit then some (pyDigitsVal rest) else none
  | '-' :: rest =>
      if !rest.isEmpty && rest.all pyIsDigit then some (-(pyDigitsVal rest : Int)) else none
  | l =>
      if !l.isEmpty && l.all pyIsDigit then some (pyDigitsVal l) else none

/-- A value passed as the `num` argument of the filter: Django hands the
filter either a string or an integer from the template expression. -/
inductive PyNum where
  | pyStr (s : String)
  | pyInt (n : Int)
deriving DecidableEq

/-- Python's `int(num)` on such a value: identity on integers, string
parsing on strings (`ValueError` modelled as `none`). -/
def pyToInt : PyNum → Option Int
  | .pyStr s => pyParseInt s
  | .pyInt n => some n

/-! ### The `truncatechars` filter

Source lines 13–41: `length = int(num)` guarded by `try/except
ValueError`; if the parse succeeded and `len(value) > length`, return
`value[:length-len(end_text)] + end_text`, otherwise return `value`
unchanged. -/

/-- The `truncatechars` filter body. -/
def truncatechars (value : String) (num : PyNum) (end_text : String) : String :=
  match pyToInt num with
  | none => value
  | some length =>
      if (value.length : Int) > length then
        pySliceTo value (length - (end_text.length : Int)) ++ end_text
      else
        value

/-! ### The media-URL tag

Source lines 44–88.  `MediaUrlNode.__init__` stores
`rel_path.lstrip('/').strip("'").strip('"')`; `render` returns
`os.path.join(static_media_url, rel_path)` when the static media URL
setting is present (the other branch delegates to Django's `reverse`,
which is outside this repository). -/

/-- The apostrophe character stripped by `.strip("'")`. -/
def squoteChar : Char := Char.ofNat 39

/-- The double-quote character stripped by `.strip('"')`. -/
def dquoteChar : Char := Char.ofNat 34

/-- The sanitization performed by `MediaUrlNode.__init__`:
`rel_path.lstrip('/').strip("'").strip('"')` — first all leading `/`
characters, then surrounding apostrophes, then surrounding double
quotes. -/
def sanitizeRelPath (s : String) : String :=
  ⟨pyStripChar (pyStripChar (pyLstrip s.data '/') squoteChar) dquoteChar⟩

/-- Does the string start with `/`?  (`b.startswith('/')` in
`posixpath.join`.) -/
def headIsSlash (s : String) : Bool :=
  match s.data with
  | [] => false
  | c :: _ => c == '/'

/-- Does the string end with `/`?  (`path.endswith('/')` in
`posixpath.join`.) -/
def lastIsSlash (s : String) : Bool :=
  match s.data.getLast? with
  | some c => c == '/'
  | none => false

/-- `os.path.join(a, b)` on POSIX for two components: an absolute second
component replaces the first; otherwise the parts are concatenated,
inserting `/` unless the first part is empty or already ends in `/`. -/
def posixJoin (a b : String) : String :=
  if headIsSlash b then b
  else if a == "" || lastIsSlash a then a ++ b
  else a ++ "/" ++ b

/-- The parse-time node of the `cloud_browser_media_url` tag: it stores
the sanitized relative path. -/
structure MediaUrlNode where
  rel_path : String
deriving DecidableEq

/-- `MediaUrlNode(rel_path)` — the constructor sanitizes its argument. -/
def MediaUrlNode.ofToken (rel : String) : MediaUrlNode :=
  ⟨sanitizeRelPath rel⟩

/-- `MediaUrlNode.render` in the configured-static-media branch:
`os.path.join(self.static_media_url, self.rel_path)`. -/
def MediaUrlNode.renderStatic (node : MediaUrlNode) (static_media_url : String) : String :=
  posixJoin static_media_url node.rel_path

/-- End-to-end media URL resolution with a configured static media URL:
parse-time sanitization followed by the render-time join. -/
def mediaUrlRender (static_media_url rel_path : String) : String :=
  (MediaUrlNode.ofToken rel_path).renderStatic static_media_url

/-! ### The messages tag

Source lines 91–142.  `CloudBrowserMessagesNode.render` builds a dict
from `(msg.level, msg.tags)` to the list of message texts (in input
order), then walks `sorted(classified_messages.iterkeys())` — ascending
lexicographic order on the `(level, tags)` pair — emitting one markup
block per key. -/

/-- A Django message as consumed by the node: numeric `level`, the
`tags` string, and the message text. -/
structure Msg where
  level : Int
  tags : String
  message : String
deriving DecidableEq

/-- The grouping key `(msg.level, msg.tags)`. -/
def msgKey (m : Msg) : Int × String :=
  (m.level, m.tags)

/-- One step of building `classified_messages`: append the text to the
entry for the message's key, or add a fresh entry at the end.  The dict
is modelled as an association list ordered by first key occurrence (the
render loop sorts the keys, so this order is not observable). -/
def addMsg (acc : List ((Int × String) × List String)) (m : Msg) :
    List ((Int × String) × List String) :=
  if acc.any (fun p => p.1 == msgKey m) then
    acc.map (fun p => if p.1 == msgKey m then (p.1, p.2 ++ [m.message]) else p)
  else
    acc ++ [(msgKey m, [m.message])]

/-- The `classified_messages` dict after the first loop of `render`. -/
def classify (msgs : List Msg) : List ((Int × String) × List String) :=
  msgs.foldl addMsg []

/-- Dict lookup `classified_messages[(level, tag)]` (empty when the key
is absent, which the render loop never encounters). -/
def textsFor (classified : List ((Int × String) × List String))
    (k : Int × String) : List String :=
  match classified.find? (fun p => p.1 == k) with
  | some p => p.2
  | none => []

/-- Strict lexicographic comparison of character lists by code point —
Python's `str` comparison (a strict prefix sorts first). -/
def charListLtb : List Char → List Char → Bool
  | _, [] => false
  | [], _ :: _ => true
  | a :: as, b :: bs =>
      decide (a < b) || (a == b && charListLtb as bs)

/-- Python's `<` on strings. -/
def strLtb (s t : String) : Bool :=
  charListLtb s.data t.data

/-- Python's tuple comparison `(level, tag) <= (level', tag')` as used by
`sorted`: level first, tag string as tiebreak. -/
def keyLEb (a b : Int × String) : Bool :=
  if a.1 < b.1 then true
  else if b.1 < a.1 then false
  else !(strLtb b.2 a.2)

/-- The propositional form of `keyLEb`, the order `sorted` arranges the
keys in. -/
def keyLE (a b : Int × String) : Prop :=
  keyLEb a b = true

instance : DecidableRel keyLE := fun a b =>
  inferInstanceAs (Decidable (keyLEb a b = true))

/-- `sorted(classified_messages.iterkeys())`: the distinct keys in
ascending `(level, tags)` order. -/
def sortedKeys (msgs : List Msg) : List (Int × String) :=
  List.insertionSort keyLE ((classify msgs).map Prod.fst)

/-- `CloudBrowserMessagesNode.render` with the message sequence already
looked up from the context: group, sort the keys, and accumulate the
markup exactly as the string concatenations of lines 135–142 do
(including the newline and the 13 spaces that the continuation line
embeds between the `div` and the `ul`). -/
def renderMessages (msgs : List Msg) : String :=
  (List.insertionSort keyLE ((classify msgs).map Prod.fst)).foldl
    (fun acc k =>
      ((textsFor (classify msgs) k).foldl
        (fun a m => a ++ "<li>" ++ m ++ "</li>")
        (acc ++ "<div class='cloud-browser-messages " ++ k.2 ++
          "'>\n             <ul class='messages-list-" ++ k.2 ++ "'>"))
      ++ "</ul>\n</div>\n")
    ""

/-- The markup block emitted for one `(level, tags)` group: the exact
template of lines 137–141. -/
def msgBlock (tag : String) (texts : List String) : String :=
  "<div class='cloud-browser-messages " ++ tag ++
    "'>\n             <ul class='messages-list-" ++ tag ++ "'>" ++
    String.join (texts.map (fun m => "<li>" ++ m ++ "</li>")) ++
    "</ul>\n</div>\n"

/-- The message renderer as the spec (amended to the emitted markup)
describes it: one `msgBlock` per distinct key, in ascending key order,
concatenated with no separator. -/
def specRenderMessages (msgs : List Msg) : String :=
  String.join ((sortedKeys msgs).map
    (fun k => msgBlock k.2 (textsFor (classify msgs) k)))

/-- Django's numeric WARNING level.  Modelled from the spec: the message
severity constants live in Django's messages framework, outside this
repository; the spec orders severities info < success < warning <
error. -/
def warningLevel : Int := 30

/-- Django's numeric ERROR level.  Modelled from the spec: see
`warningLevel`. -/
def errorLevel : Int := 40

/-! ### Tag argument parsing

Source lines 44–61 and 91–109: both tag functions run
`bits = token.split_contents()` (so `bits` is the tag name followed by
the argument tokens), raise `TemplateSyntaxError("'%s' takes one
argument" % bits[0])` unless `len(bits) == 2`, and otherwise return the
node built from `bits[1]`. -/

/-- The parse-time node of the messages tag: it stores the context
variable name. -/
structure CloudBrowserMessagesNode where
  messages : String
deriving DecidableEq

/-- The `cloud_browser_media_url` tag function over the token pieces
`bits = token.split_contents()`; a raised `TemplateSyntaxError` is
modelled as `Except.error` carrying the message. -/
def cloud_browser_media_url (bits : List String) : Except String MediaUrlNode :=
  if bits.length ≠ 2 then
    Except.error ("'" ++ bits.headD "" ++ "' takes one argument")
  else
    Except.ok (MediaUrlNode.ofToken (bits.getD 1 ""))

/-- The `cloud_browser_messages` tag function over the token pieces. -/
def cloud_browser_messages (bits : List String) : Except String CloudBrowserMessagesNode :=
  if bits.length ≠ 2 then
    Except.error ("'" ++ bits.headD "" ++ "' takes one argument")
  else
    Except.ok ⟨bits.getD 1 ""⟩

/-! ### Smoke tests

Concrete evaluations of the embedded functions, matching the worked
examples of the source docstrings. -/

example : truncatechars "abcdefghij" (.pyInt 5) "..." = "ab..." := by decide
example : truncatechars "abcdefghij" (.pyStr "5") "..." = "ab..." := by decide
example : truncatechars "short" (.pyInt 10) "..." = "short" := by decide
example : sanitizeRelPath "'css/app.css'" = "css/app.css" := by decide
example : sanitizeRelPath "//x" = "x" := by decide
example : mediaUrlRender "/static/app" "css/app.css" = "/static/app/css/app.css" := by decide
example : renderMessages [] = "" := by decide
example :
    renderMessages [⟨warningLevel, "auth", "hi"⟩] =
      "<div class='cloud-browser-messages auth'>\n             <ul class='messages-list-auth'><li>hi</li></ul>\n</div>\n" := by
  decide
example :
    cloud_browser_media_url ["cloud_browser_media_url", "css/app.css"] =
      Except.ok ⟨"css/app.css"⟩ := rfl

/-! ### Claims about the truncation filter -/

/-- C4 (amended): for every text, suffix and integer maxLength with
`len(suffix) ≤ maxLength`, `truncatechars` returns the text unchanged
when `len(text) ≤ maxLength` and otherwise the first
`maxLength - len(suffix)` characters of the text followed by the
suffix. -/
theorem truncatechars_slice (text suffix : String) (n : Int)
    (h : (suffix.length : Int) ≤ n) :
    truncatechars text (.pyInt n) suffix =
      if (text.length : Int) ≤ n then text
      else (⟨text.data.take (n - (suffix.length : Int)).toNat⟩ : String) ++ suffix := by
  by_cases hle : (text.length : Int) ≤ n
  · have hgt : ¬ ((text.length : Int) > n) := by omega
    simp [truncatechars, pyToInt, hgt, hle]
  · have hgt : (text.length : Int) > n := by omega
    have hk : ¬ (n - (suffix.length : Int) < 0) := by omega
    simp [truncatechars, pyToInt, pySliceTo, hgt, hle, hk]

/-- C4 (witness): `truncatechars "abcdefghij" 5 "..."` keeps
`5 - 3 = 2` characters and yields `"ab..."`. -/
theorem truncatechars_slice_witness :
    truncatechars "abcdefghij" (.pyInt 5) "..." = "ab..." := by
  have h := truncatechars_slice "abcdefghij" "..." 5 (by decide)
  rw [h]
  decide

/-- C4 (counterexample): at `maxLength = 2 < 3 = len(suffix)` the claimed
"first `maxLength - len(suffix)` characters followed by the suffix"
(that count being negative, no characters at all) disagrees with the
code, which produces `"abcde..."` via Python's negative-stop slice. -/
theorem truncatechars_short_max_cex :
    truncatechars "abcdef" (.pyInt 2) "..." = "abcde..." ∧
    truncatechars "abcdef" (.pyInt 2) "..." ≠
      (⟨("abcdef" : String).data.take ((2 : Int) - (("..." : String).length : Int)).toNat⟩ : String)
        ++ "..." := by
  exact ⟨by decide, by decide⟩

/-- C5: when `maxLength` is a valid non-negative integer and
`len(suffix) ≤ maxLength`, the truncated result is never longer than
`max (len(text)) maxLength`. -/
theorem truncatechars_length_bound (s suffix : String) (n : Nat)
    (h : suffix.length ≤ n) :
    (truncatechars s (.pyInt (n : Int)) suffix).length ≤ max s.length n := by
  by_cases hgt : (s.length : Int) > (n : Int)
  · have hk : ¬ ((n : Int) - (suffix.length : Int) < 0) := by omega
    simp only [truncatechars, pyToInt, pySliceTo, hgt, if_true, hk, if_false, ite_false,
      ite_true, if_neg hk, if_pos hgt]
    rw [String.length_append, String.length_mk, List.length_take]
    have hd : s.length = s.data.length := rfl
    omega
  · simp only [truncatechars, pyToInt, if_neg hgt]
    exact le_max_left _ _

/-- C5 (witness): the bound at `("abcdefghij", 5, "...")`. -/
theorem truncatechars_length_bound_witness :
    (truncatechars "abcdefghij" (.pyInt ((5 : Nat) : Int)) "...").length ≤
      max ("abcdefghij" : String).length 5 :=
  truncatechars_length_bound "abcdefghij" "..." 5 (by decide)

/-- C6: when the `num` argument does not parse as an integer the filter
silently returns the text unchanged (the `ValueError` of `int()` is
swallowed). -/
theorem truncatechars_parse_failure (value suffix num : String)
    (h : pyParseInt num = none) :
    truncatechars value (.pyStr num) suffix = value := by
  simp [truncatechars, pyToInt, h]

/-- C6 (witness): `truncatechars "abcdef" "not-a-number"` returns
`"abcdef"` unchanged. -/
theorem truncatechars_parse_failure_witness :
    truncatechars "abcdef" (.pyStr "not-a-number") "..." = "abcdef" :=
  truncatechars_parse_failure "abcdef" "..." "not-a-number" (by decide)

/-- C10: when `len(text) > maxLength` and `maxLength < len(suffix)`, the
slice stop is negative, so the result is the text with its last
`len(suffix) - maxLength` characters removed followed by the suffix; and
when `maxLength = len(suffix)` (still with `len(text) > maxLength`) the
result is exactly the suffix. -/
theorem truncatechars_negative_stop (s suffix : String) (n : Int) :
    ((s.length : Int) > n → n < (suffix.length : Int) →
      truncatechars s (.pyInt n) suffix =
        (⟨s.data.take ((s.length : Int) - ((suffix.length : Int) - n)).toNat⟩ : String)
          ++ suffix) ∧
    ((s.length : Int) > (suffix.length : Int) →
      truncatechars s (.pyInt (suffix.length : Int)) suffix = suffix) := by
  constructor
  · intro hgt hn
    have hk : n - (suffix.length : Int) < 0 := by omega
    have harg : ((s.data.length : Int) + (n - (suffix.length : Int))).toNat
        = ((s.length : Int) - ((suffix.length : Int) - n)).toNat := by
      have hd : s.length = s.data.length := rfl
      omega
    simp only [truncatechars, pyToInt, pySliceTo, if_pos hgt, if_pos hk, gt_iff_lt,
      hgt, ite_true, harg]
  · intro hgt
    have hk : ¬ ((suffix.length : Int) - (suffix.length : Int) < 0) := by omega
    have h0 : ((suffix.length : Int) - (suffix.length : Int)).toNat = 0 := by omega
    simp only [truncatechars, pyToInt, pySliceTo, if_pos hgt, if_neg hk, gt_iff_lt,
      hgt, ite_true, h0, List.take_zero]
    have he : (⟨[]⟩ : String) = "" := rfl
    rw [he, String.empty_append]

/-- C10 (witness): `truncatechars "abcdef" 2 "..."` drops the last
character and appends the suffix, giving `"abcde..."`; with
`maxLength = 3 = len("...")` the result is exactly `"..."`. -/
theorem truncatechars_negative_stop_witness :
    truncatechars "abcdef" (.pyInt 2) "..." = "abcde..." ∧
    truncatechars "abcdef" (.pyInt 3) "..." = "..." := by
  constructor
  · have h := (truncatechars_negative_stop "abcdef" "..." 2).1 (by decide) (by decide)
    rw [h]; decide
  · have h := (truncatechars_negative_stop "abcdef" "..." 2).2 (by decide)
    have h3 : ((("..." : String).length : Int)) = 3 := by decide
    rw [h3] at h
    exact h

/-! ### Claims about the media-URL tag -/

/-- C3 (amended): when the configured static media URL is nonempty and
does not end in `/`, and the sanitized relative path (all leading `/`
characters stripped, then surrounding apostrophes, then surrounding
double quotes) does not itself begin with `/`, the resolved URL is the
base, one `/` separator, and the sanitized path. -/
theorem mediaUrl_join_relative (base rel : String)
    (hne : base ≠ "") (hslash : lastIsSlash base = false)
    (habs : headIsSlash (sanitizeRelPath rel) = false) :
    mediaUrlRender base rel = base ++ "/" ++ sanitizeRelPath rel := by
  have hb : (base == "") = false := beq_eq_false_iff_ne.mpr hne
  simp [mediaUrlRender, MediaUrlNode.renderStatic, MediaUrlNode.ofToken, posixJoin,
    habs, hb, hslash]

/-- C3 (witness): with base `"/static/app"`, both `"css/app.css"` and
its quoted form `"'css/app.css'"` resolve to
`"/static/app/css/app.css"`. -/
theorem mediaUrl_join_relative_witness :
    mediaUrlRender "/static/app" "css/app.css" = "/static/app/css/app.css" ∧
    mediaUrlRender "/static/app" "'css/app.css'" = "/static/app/css/app.css" := by
  constructor
  · have h := mediaUrl_join_relative "/static/app" "css/app.css"
      (by decide) (by decide) (by decide)
    rw [h]; decide
  · have h := mediaUrl_join_relative "/static/app" "'css/app.css'"
      (by decide) (by decide) (by decide)
    rw [h]; decide

/-- C3 (counterexample): for the quoted absolute input `"'/css/x.css'"`
the rendered URL is `"/css/x.css"` — the configured base is discarded,
so the result is not the base concatenated with the sanitized path. -/
theorem mediaUrl_quoted_absolute_cex :
    mediaUrlRender "/static/app" "'/css/x.css'" = "/css/x.css" ∧
    mediaUrlRender "/static/app" "'/css/x.css'" ≠ "/static/app/css/x.css" ∧
    mediaUrlRender "/static/app" "'/css/x.css'" ≠
      "/static/app" ++ "/" ++ sanitizeRelPath "'/css/x.css'" := by
  exact ⟨by decide, by decide, by decide⟩

/-- C9: `MediaUrlNode.__init__` strips leading slashes before stripping
quote characters, so a slash shielded by quotes survives sanitization
(`"'/css/x.css'"` sanitizes to `"/css/x.css"`), and joining the base
with such an absolute sanitized path returns just the sanitized path,
discarding the base (`os.path.join` with an absolute second
component). -/
theorem sanitize_quoted_slash_survives :
    sanitizeRelPath "'/css/x.css'" = "/css/x.css" ∧
    ∀ base rel : String, headIsSlash (sanitizeRelPath rel) = true →
      mediaUrlRender base rel = sanitizeRelPath rel := by
  constructor
  · decide
  · intro base rel h
    simp [mediaUrlRender, MediaUrlNode.renderStatic, MediaUrlNode.ofToken, posixJoin, h]

/-- C9 (witness): with base `"/static/app"` the quoted absolute input
`"'/css/x.css'"` renders as `"/css/x.css"`. -/
theorem sanitize_quoted_slash_survives_witness :
    mediaUrlRender "/static/app" "'/css/x.css'" = "/css/x.css" := by
  have h := sanitize_quoted_slash_survives.2 "/static/app" "'/css/x.css'" (by decide)
  rw [h]; decide

/-! ### Claims about tag argument parsing -/

/-- C7: both tag functions accept exactly one argument token: with the
token split into the tag name and its arguments, any argument count
other than one raises `TemplateSyntaxError` naming the tag at parse
time, and exactly one argument yields a node. -/
theorem tags_argument_count (tag : String) (args : List String) :
    (args.length ≠ 1 →
      cloud_browser_media_url (tag :: args) =
        Except.error ("'" ++ tag ++ "' takes one argument") ∧
      cloud_browser_messages (tag :: args) =
        Except.error ("'" ++ tag ++ "' takes one argument")) ∧
    (∀ a, args = [a] →
      cloud_browser_media_url (tag :: args) = Except.ok (MediaUrlNode.ofToken a) ∧
      cloud_browser_messages (tag :: args) = Except.ok ⟨a⟩) := by
  constructor
  · intro h
    constructor <;>
      simp [cloud_browser_media_url, cloud_browser_messages, h]
  · rintro a rfl
    constructor <;>
      simp [cloud_browser_media_url, cloud_browser_messages]

/-- C7 (witness): zero arguments and two arguments produce the syntax
error naming the tag; one argument produces a node. -/
theorem tags_argument_count_witness :
    cloud_browser_media_url ["cloud_browser_media_url"] =
      Except.error "'cloud_browser_media_url' takes one argument" ∧
    cloud_browser_messages ["cloud_browser_messages", "messages", "msgs2"] =
      Except.error "'cloud_browser_messages' takes one argument" ∧
    cloud_browser_media_url ["cloud_browser_media_url", "css/app.css"] =
      Except.ok (MediaUrlNode.ofToken "css/app.css") := by
  refine ⟨?_, ?_, ?_⟩
  · exact ((tags_argument_count "cloud_browser_media_url" []).1 (by decide)).1
  · exact ((tags_argument_count "cloud_browser_messages" ["messages", "msgs2"]).1 (by decide)).2
  · exact ((tags_argument_count "cloud_browser_media_url" ["css/app.css"]).2
      "css/app.css" rfl).1

/-! ### Order lemmas for the key comparison -/

theorem bool_eq_false_or_true (b : Bool) : b = false ∨ b = true := by
  cases b
  · exact Or.inl rfl
  · exact Or.inr rfl

theorem charListLtb_irrefl : ∀ l : List Char, charListLtb l l = false := by
  intro l
  induction l with
  | nil => rfl
  | cons a as ih =>
    show (decide (a < a) || (a == a && charListLtb as as)) = false
    rw [decide_eq_false (lt_irrefl a), ih]
    simp

theorem charListLtb_trans :
    ∀ x y z : List Char, charListLtb x y = true → charListLtb y z = true →
      charListLtb x z = true := by
  intro x
  induction x with
  | nil =>
    intro y z h1 h2
    cases y with
    | nil => simp [charListLtb] at h1
    | cons b bs =>
      cases z with
      | nil => simp [charListLtb] at h2
      | cons c cs => simp [charListLtb]
  | cons a as ih =>
    intro y z h1 h2
    cases y with
    | nil => simp [charListLtb] at h1
    | cons b bs =>
      cases z with
      | nil => simp [charListLtb] at h2
      | cons c cs =>
        simp only [charListLtb, Bool.or_eq_true, Bool.and_eq_true, decide_eq_true_eq,
          beq_iff_eq] at h1 h2 ⊢
        rcases h1 with h1 | ⟨hab, h1⟩
        · rcases h2 with h2 | ⟨hbc, h2⟩
          · exact Or.inl (lt_trans h1 h2)
          · exact Or.inl (by rw [← hbc]; exact h1)
        · rcases h2 with h2 | ⟨hbc, h2⟩
          · exact Or.inl (by rw [hab]; exact h2)
          · exact Or.inr ⟨hab.trans hbc, ih bs cs h1 h2⟩

theorem charListLtb_le_trans :
    ∀ x y z : List Char, charListLtb y x = false → charListLtb z y = false →
      charListLtb z x = false := by
  intro x
  induction x with
  | nil =>
    intro y z _ _
    cases z with
    | nil => rfl
    | cons c cs => rfl
  | cons a as ih =>
    intro y z h1 h2
    cases y with
    | nil => simp [charListLtb] at h1
    | cons b bs =>
      cases z with
      | nil => simp [charListLtb] at h2
      | cons c cs =>
        simp only [charListLtb, Bool.or_eq_true, Bool.and_eq_true, decide_eq_true_eq,
          beq_iff_eq, Bool.eq_false_iff, ne_eq, not_or, not_and] at h1 h2 ⊢
        refine ⟨?_, ?_⟩
        · intro hca
          rcases lt_trichotomy b a with hb | hb | hb
          · exact h1.1 hb
          · subst hb
            exact h2.1 hca
          · exact h2.1 (lt_trans hca hb)
        · intro hca hlt
          subst hca
          rcases lt_trichotomy b c with hb | hb | hb
          · exact h1.1 hb
          · subst hb
            have e1 : charListLtb bs as = false := Bool.eq_false_iff.mpr (h1.2 rfl)
            have e2 : charListLtb cs bs = false := Bool.eq_false_iff.mpr (h2.2 rfl)
            have hle := ih bs cs e1 e2
            rw [hle] at hlt
            exact absurd hlt (by simp)
          · exact h2.1 hb

theorem strLtb_asymm {s t : String} (h : strLtb s t = true) : strLtb t s = false := by
  rcases bool_eq_false_or_true (strLtb t s) with e | e
  · exact e
  · have htrans := charListLtb_trans s.data t.data s.data h e
    rw [charListLtb_irrefl] at htrans
    exact absurd htrans (by simp)

theorem keyLEb_total (a b : Int × String) : keyLEb a b = true ∨ keyLEb b a = true := by
  unfold keyLEb
  rcases lt_trichotomy a.1 b.1 with h | h | h
  · left; rw [if_pos h]
  · rcases bool_eq_false_or_true (strLtb b.2 a.2) with e | e
    · left
      rw [if_neg (by omega), if_neg (by omega), e]
      rfl
    · right
      rw [if_neg (by omega), if_neg (by omega), strLtb_asymm e]
      rfl
  · right; rw [if_pos h]

theorem keyLEb_trans {a b c : Int × String}
    (h1 : keyLEb a b = true) (h2 : keyLEb b c = true) : keyLEb a c = true := by
  unfold keyLEb at h1 h2 ⊢
  by_cases h1a : a.1 < b.1
  · by_cases h2a : b.1 < c.1
    · rw [if_pos (lt_trans h1a h2a)]
    · by_cases h2b : c.1 < b.1
      · rw [if_neg h2a, if_pos h2b] at h2
        exact absurd h2 (by simp)
      · rw [if_pos (show a.1 < c.1 by omega)]
  · by_cases h1b : b.1 < a.1
    · rw [if_neg h1a, if_pos h1b] at h1
      exact absurd h1 (by simp)
    · by_cases h2a : b.1 < c.1
      · rw [if_pos (show a.1 < c.1 by omega)]
      · by_cases h2b : c.1 < b.1
        · rw [if_neg h2a, if_pos h2b] at h2
          exact absurd h2 (by simp)
        · rw [if_neg h1a, if_neg h1b] at h1
          rw [if_neg h2a, if_neg h2b] at h2
          rw [if_neg (show ¬ a.1 < c.1 by omega), if_neg (show ¬ c.1 < a.1 by omega)]
          have e1 : strLtb b.2 a.2 = false := by
            rcases bool_eq_false_or_true (strLtb b.2 a.2) with e | e
            · exact e
            · rw [e] at h1; exact absurd h1 (by simp)
          have e2 : strLtb c.2 b.2 = false := by
            rcases bool_eq_false_or_true (strLtb c.2 b.2) with e | e
            · exact e
            · rw [e] at h2; exact absurd h2 (by simp)
          rw [show strLtb c.2 a.2 = false from
            charListLtb_le_trans a.2.data b.2.data c.2.data e1 e2]
          rfl

/-! ### Lemmas about the grouping pass -/

theorem addMsg_upd_fst (K : Int × String) (t : String)
    (p : (Int × String) × List String) :
    (if p.1 == K then (p.1, p.2 ++ [t]) else p).1 = p.1 := by
  cases h : p.1 == K <;> simp [h]

theorem textsFor_cons (q : (Int × String) × List String)
    (l : List ((Int × String) × List String)) (k : Int × String) :
    textsFor (q :: l) k = if q.1 == k then q.2 else textsFor l k := by
  cases h : q.1 == k <;> simp [textsFor, List.find?, h]

theorem textsFor_map_ne (acc : List ((Int × String) × List String))
    (K : Int × String) (t : String) (k : Int × String) (hk : k ≠ K) :
    textsFor (acc.map (fun p => if p.1 == K then (p.1, p.2 ++ [t]) else p)) k
      = textsFor acc k := by
  induction acc with
  | nil => rfl
  | cons p rest ih =>
    rw [List.map_cons, textsFor_cons, textsFor_cons]
    have hf : ((if p.1 == K then (p.1, p.2 ++ [t]) else p).1 == k) = (p.1 == k) := by
      rw [addMsg_upd_fst]
    rw [hf]
    cases h : p.1 == k
    · simp only [h, Bool.false_eq_true, if_false, ih]
    · have hpk : p.1 = k := beq_iff_eq.mp h
      have hK : (p.1 == K) = false := beq_eq_false_iff_ne.mpr (hpk ▸ hk)
      simp [h, hK]

theorem textsFor_map_self (acc : List ((Int × String) × List String))
    (K : Int × String) (t : String)
    (h : acc.any (fun p => p.1 == K) = true) :
    textsFor (acc.map (fun p => if p.1 == K then (p.1, p.2 ++ [t]) else p)) K
      = textsFor acc K ++ [t] := by
  induction acc with
  | nil => simp at h
  | cons p rest ih =>
    rw [List.map_cons, textsFor_cons, textsFor_cons]
    have hf : ((if p.1 == K then (p.1, p.2 ++ [t]) else p).1 == K) = (p.1 == K) := by
      rw [addMsg_upd_fst]
    rw [hf]
    cases hp : p.1 == K
    · have h' : rest.any (fun p => p.1 == K) = true := by
        rw [List.any_cons, hp] at h
        simpa using h
      simp only [hp, Bool.false_eq_true, if_false, ih h']
    · simp [hp]

theorem textsFor_append_new (acc : List ((Int × String) × List String))
    (K : Int × String) (t : String) (k : Int × String)
    (h : acc.any (fun p => p.1 == K) = false) :
    textsFor (acc ++ [(K, [t])]) k
      = if k = K then textsFor acc k ++ [t] else textsFor acc k := by
  induction acc with
  | nil =>
    rw [List.nil_append, textsFor_cons]
    by_cases hk : k = K
    · subst hk
      simp [textsFor]
    · have hKk : (K == k) = false := beq_eq_false_iff_ne.mpr (Ne.symm hk)
      simp [hKk, hk, textsFor]
  | cons p rest ih =>
    have hp : (p.1 == K) = false ∧ rest.any (fun p => p.1 == K) = false := by
      rw [List.any_cons] at h
      simpa using h
    rw [List.cons_append, textsFor_cons, textsFor_cons]
    cases hpk : p.1 == k
    · rw [ih hp.2]
      simp [hpk]
    · have hk : k ≠ K := by
        intro he
        subst he
        rw [hpk] at hp
        exact absurd hp.1 (by simp)
      simp [hpk, hk]

theorem textsFor_addMsg (acc : List ((Int × String) × List String)) (m : Msg)
    (k : Int × String) :
    textsFor (addMsg acc m) k
      = if k = msgKey m then textsFor acc k ++ [m.message] else textsFor acc k := by
  unfold addMsg
  cases h : acc.any (fun p => p.1 == msgKey m)
  · simp only [h, Bool.false_eq_true, if_false]
    exact textsFor_append_new acc (msgKey m) m.message k h
  · simp only [h, if_true]
    by_cases hk : k = msgKey m
    · subst hk
      rw [if_pos rfl]
      exact textsFor_map_self acc (msgKey m) m.message h
    · rw [if_neg hk]
      exact textsFor_map_ne acc (msgKey m) m.message k hk

theorem textsFor_classify_aux :
    ∀ (msgs : List Msg) (acc : List ((Int × String) × List String)) (k : Int × String),
    textsFor (List.foldl addMsg acc msgs) k
      = textsFor acc k ++ (msgs.filter (fun m => msgKey m == k)).map Msg.message := by
  intro msgs
  induction msgs with
  | nil => intro acc k; simp
  | cons m ms ih =>
    intro acc k
    rw [List.foldl_cons, ih, textsFor_addMsg]
    by_cases hk : k = msgKey m
    · subst hk
      rw [List.filter_cons_of_pos (by simp)]
      simp [List.append_assoc]
    · rw [List.filter_cons_of_neg (by simpa using fun he => hk he.symm)]
      rw [if_neg hk]

theorem addMsg_keys (acc : List ((Int × String) × List String)) (m : Msg) :
    (addMsg acc m).map Prod.fst
      = if acc.any (fun p => p.1 == msgKey m) then acc.map Prod.fst
        else acc.map Prod.fst ++ [msgKey m] := by
  unfold addMsg
  cases h : acc.any (fun p => p.1 == msgKey m)
  · simp [h]
  · simp only [h, if_true, List.map_map]
    exact List.map_congr_left (fun p _ => addMsg_upd_fst (msgKey m) m.message p)

theorem classify_keys_nodup_aux :
    ∀ (msgs : List Msg) (acc : List ((Int × String) × List String)),
    (acc.map Prod.fst).Nodup → ((List.foldl addMsg acc msgs).map Prod.fst).Nodup := by
  intro msgs
  induction msgs with
  | nil => intro acc h; exact h
  | cons m ms ih =>
    intro acc h
    rw [List.foldl_cons]
    apply ih
    rw [addMsg_keys]
    cases hany : acc.any (fun p => p.1 == msgKey m)
    · simp only [hany, Bool.false_eq_true, if_false]
      have hnotmem : msgKey m ∉ acc.map Prod.fst := by
        intro hmem
        rcases List.mem_map.mp hmem with ⟨p, hpmem, hpk⟩
        have : (p.1 == msgKey m) = true := beq_iff_eq.mpr hpk
        rw [List.any_eq_false] at hany
        exact absurd this (by simpa using hany p hpmem)
      have hperm : (acc.map Prod.fst ++ [msgKey m]).Perm (msgKey m :: acc.map Prod.fst) :=
        List.perm_append_singleton _ _
      exact hperm.nodup_iff.mpr (List.nodup_cons.mpr ⟨hnotmem, h⟩)
    · simpa [hany] using h

theorem classify_keys_nodup (msgs : List Msg) :
    ((classify msgs).map Prod.fst).Nodup :=
  classify_keys_nodup_aux msgs [] (by simp)

theorem classify_keys_mem_aux :
    ∀ (msgs : List Msg) (acc : List ((Int × String) × List String)) (k : Int × String),
    k ∈ (List.foldl addMsg acc msgs).map Prod.fst
      ↔ k ∈ acc.map Prod.fst ∨ ∃ m ∈ msgs, msgKey m = k := by
  intro msgs
  induction msgs with
  | nil => intro acc k; simp
  | cons m ms ih =>
    intro acc k
    rw [List.foldl_cons, ih, addMsg_keys]
    cases hany : acc.any (fun p => p.1 == msgKey m)
    · simp only [hany, Bool.false_eq_true, if_false]
      constructor
      · rintro (hmem | hms)
        · rcases List.mem_append.mp hmem with hacc | hsing
          · exact Or.inl hacc
          · refine Or.inr ⟨m, List.mem_cons_self m ms, ?_⟩
            rcases List.mem_singleton.mp hsing with rfl
            rfl
        · rcases hms with ⟨m', hm', hk⟩
          exact Or.inr ⟨m', List.mem_cons_of_mem m hm', hk⟩
      · rintro (hacc | ⟨m', hm', hk⟩)
        · exact Or.inl (List.mem_append.mpr (Or.inl hacc))
        · rcases List.mem_cons.mp hm' with rfl | hm'
          · exact Or.inl (List.mem_append.mpr (Or.inr (List.mem_singleton.mpr hk.symm)))
          · exact Or.inr ⟨m', hm', hk⟩
    · simp only [hany, if_true]
      have hmem : msgKey m ∈ acc.map Prod.fst := by
        rcases List.any_eq_true.mp hany with ⟨p, hpmem, hpk⟩
        exact List.mem_map.mpr ⟨p, hpmem, beq_iff_eq.mp hpk⟩
      constructor
      · rintro (hacc | ⟨m', hm', hk⟩)
        · exact Or.inl hacc
        · exact Or.inr ⟨m', List.mem_cons_of_mem m hm', hk⟩
      · rintro (hacc | ⟨m', hm', hk⟩)
        · exact Or.inl hacc
        · rcases List.mem_cons.mp hm' with rfl | hm'
          · exact Or.inl (hk ▸ hmem)
          · exact Or.inr ⟨m', hm', hk⟩

theorem classify_keys_mem (msgs : List Msg) (k : Int × String) :
    k ∈ (classify msgs).map Prod.fst ↔ ∃ m ∈ msgs, msgKey m = k := by
  have h := classify_keys_mem_aux msgs [] k
  simpa using h

/-! ### String concatenation lemmas for the render loop -/

theorem join_nil : String.join [] = "" := rfl

theorem strfoldl_append (l : List String) :
    ∀ acc : String, l.foldl (fun r s => r ++ s) acc = acc ++ String.join l := by
  induction l with
  | nil =>
    intro acc
    rw [List.foldl_nil, join_nil, String.append_empty]
  | cons s t ih =>
    intro acc
    rw [List.foldl_cons, ih]
    have hjoin : String.join (s :: t) = s ++ String.join t := by
      show List.foldl (fun r s => r ++ s) ("" ++ s) t = s ++ String.join t
      rw [ih ("" ++ s), String.empty_append]
    rw [hjoin, String.append_assoc]

theorem join_cons (s : String) (l : List String) :
    String.join (s :: l) = s ++ String.join l := by
  show List.foldl (fun r s => r ++ s) ("" ++ s) l = s ++ String.join l
  rw [strfoldl_append l ("" ++ s), String.empty_append]

theorem foldl_li_append (texts : List String) :
    ∀ acc : String,
    texts.foldl (fun a m => a ++ "<li>" ++ m ++ "</li>") acc
      = acc ++ String.join (texts.map (fun m => "<li>" ++ m ++ "</li>")) := by
  induction texts with
  | nil =>
    intro acc
    rw [List.foldl_nil, List.map_nil, join_nil, String.append_empty]
  | cons t ts ih =>
    intro acc
    rw [List.foldl_cons, ih, List.map_cons, join_cons]
    simp [String.append_assoc]

theorem renderMessages_foldl_eq (c : List ((Int × String) × List String)) :
    ∀ (keys : List (Int × String)) (acc : String),
    keys.foldl (fun acc k =>
      ((textsFor c k).foldl (fun a m => a ++ "<li>" ++ m ++ "</li>")
        (acc ++ "<div class='cloud-browser-messages " ++ k.2 ++
          "'>\n             <ul class='messages-list-" ++ k.2 ++ "'>"))
      ++ "</ul>\n</div>\n") acc
    = acc ++ String.join (keys.map (fun k => msgBlock k.2 (textsFor c k))) := by
  intro keys
  induction keys with
  | nil =>
    intro acc
    rw [List.foldl_nil, List.map_nil, join_nil, String.append_empty]
  | cons k ks ih =>
    intro acc
    rw [List.foldl_cons, ih, foldl_li_append, List.map_cons, join_cons]
    simp [msgBlock, String.append_assoc]

theorem renderMessages_eq_spec (msgs : List Msg) :
    renderMessages msgs = specRenderMessages msgs := by
  unfold renderMessages specRenderMessages sortedKeys
  rw [renderMessages_foldl_eq, String.empty_append]

/-! ### Claims about the messages tag -/

/-- C8: the grouping pass of `render` partitions the input: the keys of
`classified_messages` are pairwise distinct, and the list stored under
any key `(lv, tg)` is exactly the texts of the input messages whose
`(level, tags)` pair equals that key, in input order — so every message
lands in exactly one group, chosen solely by exact key equality, and
within-group order is the input order. -/
theorem classify_partition (msgs : List Msg) (lv : Int) (tg : String) :
    ((classify msgs).map Prod.fst).Nodup ∧
    textsFor (classify msgs) (lv, tg) =
      (msgs.filter (fun m => msgKey m == (lv, tg))).map Msg.message := by
  refine ⟨classify_keys_nodup msgs, ?_⟩
  have h := textsFor_classify_aux msgs [] (lv, tg)
  simpa [textsFor] using h

/-- C1 (amended): `render` emits one markup block per distinct
`(severity, category-string)` key, blocks ordered by ascending natural
order of the key pair (severity first, category-string as tiebreak); in
particular, with Django's numeric levels (warning = 30 < error = 40),
the input of two `(warning, "auth")` messages and one `(error, "auth")`
message renders the warning block before the error block. -/
theorem renderMessages_sorted_blocks (msgs : List Msg) :
    List.Sorted keyLE (sortedKeys msgs) ∧
    (sortedKeys msgs).Nodup ∧
    (sortedKeys msgs).Perm ((msgs.map msgKey).dedup) ∧
    renderMessages msgs =
      String.join ((sortedKeys msgs).map
        (fun k => msgBlock k.2 (textsFor (classify msgs) k))) ∧
    renderMessages
        [⟨warningLevel, "auth", "w1"⟩, ⟨warningLevel, "auth", "w2"⟩,
          ⟨errorLevel, "auth", "e1"⟩] =
      msgBlock "auth" ["w1", "w2"] ++ msgBlock "auth" ["e1"] := by
  have hperm : (sortedKeys msgs).Perm ((classify msgs).map Prod.fst) :=
    List.perm_insertionSort keyLE _
  refine ⟨?_, ?_, ?_, ?_, by decide⟩
  · exact @List.sorted_insertionSort _ keyLE _ ⟨keyLEb_total⟩
      ⟨fun _ _ _ => keyLEb_trans⟩ _
  · exact hperm.nodup_iff.mpr (classify_keys_nodup msgs)
  · refine hperm.trans ?_
    refine (List.perm_ext_iff_of_nodup (classify_keys_nodup msgs)
      (List.nodup_dedup _)).mpr ?_
    intro k
    rw [classify_keys_mem, List.mem_dedup, List.mem_map]
  · exact renderMessages_eq_spec msgs

/-- C1 (counterexample): for two `(warning, "auth")` messages and one
`(error, "auth")` message, the rendered output is the warning block
followed by the error block — the error block does not appear first,
because `sorted` orders the numeric levels ascending and Django's
warning level (30) is below its error level (40). -/
theorem renderMessages_error_not_first :
    renderMessages
        [⟨warningLevel, "auth", "w1"⟩, ⟨warningLevel, "auth", "w2"⟩,
          ⟨errorLevel, "auth", "e1"⟩] ≠
      msgBlock "auth" ["e1"] ++ msgBlock "auth" ["w1", "w2"] ∧
    renderMessages
        [⟨warningLevel, "auth", "w1"⟩, ⟨warningLevel, "auth", "w2"⟩,
          ⟨errorLevel, "auth", "e1"⟩] =
      msgBlock "auth" ["w1", "w2"] ++ msgBlock "auth" ["e1"] := by
  exact ⟨by decide, by decide⟩

/-- C2 (amended): for every input, the output of `render` is exactly one
markup block per distinct `(severity, category)` group in
severity-then-category sorted order, concatenated with no separator,
where each block is `<div class='cloud-browser-messages {category}'>`, a
newline and thirteen spaces, `<ul class='messages-list-{category}'>`,
one `<li>{text}</li>` per message of the group, and `</ul>`, newline,
`</div>`, newline — attribute values are single-quoted; the empty input
yields the empty string. -/
theorem renderMessages_markup :
    (∀ msgs : List Msg, renderMessages msgs = specRenderMessages msgs) ∧
    renderMessages [] = "" :=
  ⟨renderMessages_eq_spec, rfl⟩

/-- C2 (counterexample): the rendered markup contains no double-quote
character at all — a one-message input renders with single-quoted
attribute values, so the output is not the documented double-quoted
template. -/
theorem renderMessages_no_double_quote :
    renderMessages [⟨warningLevel, "auth", "hi"⟩] =
      "<div class='cloud-browser-messages auth'>\n             <ul class='messages-list-auth'><li>hi</li></ul>\n</div>\n" ∧
    dquoteChar ∉ (renderMessages [⟨warningLevel, "auth", "hi"⟩]).data := by
  exact ⟨by decide, by decide⟩

end CloudBrowserExtras
